import Mathlib

/-!
Verification of the arduino-to-esp source-analysis and rewriting engine
(`yaksh/arduino_to_esp/main.py`).

The engine consumes a tree-sitter syntax tree of a C/C++ source file.  The
parser itself is an external collaborator; we embed the tree shape it
produces (typed nodes with byte spans, ordered children, optional named
fields) as the inductive type `Node` below, and translate each Python
function of the engine into a Lean function over that shape.

Source bytes are modelled as `List Char` (the inputs are ASCII, so one
byte is one character and `bytes.decode()` is the identity on the
character content).  A Python run that raises an uncaught exception is
modelled by an `Option` result of `none`.
-/

set_option maxRecDepth 4000
set_option linter.unusedVariables false

mutual
/-- A tree-sitter syntax node: a kind tag, a half-open byte span
`[startB, endB)` into the source buffer, and the ordered list of children,
each optionally carrying the field name under which the parent exposes it
(`child_by_field_name`). -/
inductive Node : Type where
| mk (kind : String) (startB endB : Nat) (children : ChildList) : Node
inductive ChildList : Type where
| nil : ChildList
| cons (fieldName : Option String) (child : Node) (rest : ChildList) : ChildList
end

def Node.kind : Node → String
| .mk k _ _ _ => k

def Node.startB : Node → Nat
| .mk _ s _ _ => s

def Node.endB : Node → Nat
| .mk _ _ e _ => e

def Node.children : Node → ChildList
| .mk _ _ _ cs => cs

/-- `child_by_field_name`: first child carrying the requested field name. -/
def ChildList.byField : ChildList → String → Option Node
| .nil, _ => none
| .cons f c rest, name => if f = some name then some c else rest.byField name

def Node.childByFieldName (n : Node) (f : String) : Option Node :=
  n.children.byField f

/-- Build a `ChildList` from a list of `(field name, node)` pairs. -/
def toCL : List (Option String × Node) → ChildList
| [] => .nil
| (f, n) :: rest => .cons f n (toCL rest)

/-- `source[n.start_byte:n.end_byte].decode()`. -/
def nodeText (source : List Char) (n : Node) : String :=
  String.mk (List.take (n.endB - n.startB) (List.drop n.startB source))

mutual
/-- All nodes of the tree in pre-order (node before children, children
left to right) — the traversal order of every walk in the engine. -/
def Node.allNodes : Node → List Node
| .mk k s e cs => Node.mk k s e cs :: allNodesList cs
def allNodesList : ChildList → List Node
| .nil => []
| .cons _ c rest => c.allNodes ++ allNodesList rest
end

/-- The match test of `find_digital_write_calls` / `find_function_calls`:
the node is a `call_expression` whose `function` field is present and
whose source text equals the requested name. -/
def isNamedCall (source : List Char) (fname : String) (n : Node) : Bool :=
  n.kind == "call_expression" &&
    (match n.childByFieldName ("function") with
     | some fn => nodeText source fn == fname
     | none => false)

mutual
/-- `find_digital_write_calls(node, source, results)`: pre-order
collection of every call expression whose callee text is exactly
`digitalWrite`. -/
def find_digital_write_calls (source : List Char) : Node → List Node
| .mk k s e cs =>
    (if isNamedCall source ("digitalWrite") (Node.mk k s e cs)
     then [Node.mk k s e cs] else []) ++ fdwList source cs
def fdwList (source : List Char) : ChildList → List Node
| .nil => []
| .cons _ c rest => find_digital_write_calls source c ++ fdwList source rest
end

mutual
/-- `find_function_calls(node, source, func_name, results)`. -/
def find_function_calls (source : List Char) (fname : String) : Node → List Node
| .mk k s e cs =>
    (if isNamedCall source fname (Node.mk k s e cs)
     then [Node.mk k s e cs] else []) ++ ffcList source fname cs
def ffcList (source : List Char) (fname : String) : ChildList → List Node
| .nil => []
| .cons _ c rest => find_function_calls source fname c ++ ffcList source fname rest
end

/-- Python `str.strip()` on ASCII text: drop leading and trailing
whitespace characters. -/
def isSpaceB (c : Char) : Bool :=
  c == ' ' || c == '\t' || c == '\n' || c == '\r' || c == '\x0b' || c == '\x0c'

def stripChars (l : List Char) : List Char :=
  ((l.dropWhile isSpaceB).reverse.dropWhile isSpaceB).reverse

def pyStrip (s : String) : String := String.mk (stripChars s.data)

/-- The loop body of `extract_args`: collect the stripped source text of
every child of the argument-list node whose kind is not a parenthesis or
comma token. -/
def argVals (source : List Char) : ChildList → List String
| .nil => []
| .cons _ c rest =>
    if c.kind = "(" ∨ c.kind = ")" ∨ c.kind = "," then argVals source rest
    else pyStrip (nodeText source c) :: argVals source rest

/-- `extract_args(call_node, source)`.  When the call has no `arguments`
field the Python code dereferences `None` and raises `AttributeError`;
this is modelled by the result `none`. -/
def extract_args (call : Node) (source : List Char) : Option (List String) :=
  match call.childByFieldName ("arguments") with
  | none => none
  | some args => some (argVals source args.children)

/-- Python dict assignment `d[k] = v`: overwrite in place if the key is
present, else append (insertion order preserved). -/
def dictSet (m : List (String × String)) (k v : String) : List (String × String) :=
  if (m.map Prod.fst).contains k
  then m.map (fun p => if p.1 = k then (k, v) else p)
  else m ++ [(k, v)]

/-- Python dict lookup `d[k]` / membership `k in d`. -/
def dictGet (m : List (String × String)) (k : String) : Option String :=
  (m.find? (fun p => p.1 == k)).map Prod.snd

/-- Inner loop of `extract_variable_assignments` over the children of an
`init_declarator`: the last `number_literal` / `identifier` /
`field_identifier` child (or the `right` field of an
`assignment_expression` child) provides the candidate value. -/
def subScan (source : List Char) : ChildList → Option String → Option String
| .nil, acc => acc
| .cons _ sub rest, acc =>
    subScan source rest
      (if sub.kind = "number_literal" ∨ sub.kind = "identifier" ∨ sub.kind = "field_identifier" then
         some (pyStrip (nodeText source sub))
       else if sub.kind = "assignment_expression" then
         match sub.childByFieldName ("right") with
         | some r => some (pyStrip (nodeText source r))
         | none => acc
       else acc)

/-- Middle loop of `extract_variable_assignments` over the children of a
`declaration`, scanning each `init_declarator` child. -/
def initScan (source : List Char) : ChildList → Option String → Option String
| .nil, acc => acc
| .cons _ c rest, acc =>
    initScan source rest
      (if c.kind = "init_declarator" then subScan source c.children acc else acc)

mutual
/-- `visit` of `extract_variable_assignments`: at each `declaration` node,
read the `declarator` field, compute the candidate value from the
`init_declarator` children, and (when the value is truthy) record it in
the dict under the stripped source text of the `declarator` field; then
recurse into all children. -/
def visitNode (source : List Char) : Node → List (String × String) → List (String × String)
| .mk k s e cs, m =>
    visitChildren source cs
      (if k = "declaration" then
         match ChildList.byField cs ("declarator") with
         | some vn =>
             match initScan source cs none with
             | some v => if v = "" then m else dictSet m (pyStrip (nodeText source vn)) v
             | none => m
         | none => m
       else m)
def visitChildren (source : List Char) : ChildList → List (String × String) → List (String × String)
| .nil, m => m
| .cons _ c rest, m => visitChildren source rest (visitNode source c m)
end

/-- `extract_variable_assignments(tree, source)` (the BindingMap). -/
def extract_variable_assignments (tree : Node) (source : List Char) : List (String × String) :=
  visitNode source tree []

/-- A Python value that is either an int or a string (the two shapes a
pin takes in `is_valid_pin` and the namespace sets). -/
inductive PyVal : Type where
| i (n : Int) : PyVal
| s (str : String) : PyVal
deriving DecidableEq

/-- Membership in `ANALOG_PINS = {"A0".."A5", 0..5}`. -/
def ANALOG_PINS_mem : PyVal → Bool
| .s t => (["A0", "A1", "A2", "A3", "A4", "A5"]).contains t
| .i n => decide (0 ≤ n ∧ n ≤ 5)

/-- Membership in `DIGITAL_PINS = {"D0".."D13", 0..13}`. -/
def DIGITAL_PINS_mem : PyVal → Bool
| .s t => ((List.range 14).map (fun k => ("D") ++ toString k)).contains t
| .i n => decide (0 ≤ n ∧ n ≤ 13)

/-- `is_valid_pin(func, pin)` (defined in the source, never called by
`main`). -/
def is_valid_pin (func : String) (pin : PyVal) : Bool :=
  if func = "analogRead" then ANALOG_PINS_mem pin
  else if func = "digitalRead" ∨ func = "digitalWrite" then DIGITAL_PINS_mem pin
  else true

/-- One substitution into the source buffer, as built by `main`:
`(call.start_byte, call.end_byte, log_stmt)`. -/
abbrev Edit : Type := Nat × Nat × List Char

/-- Rendering of a Python value in an f-string: `None` prints as the text
`None`, a string prints verbatim. -/
def pyStr : Option String → String
| none => "None"
| some s => s

/-- The replacement text
`f'ESP_LOGI(TAG, "PIN {pin_resolved}, {val}");'.encode()`. -/
def logStmt (pinResolved val : Option String) : List Char :=
  (("ESP_LOGI(TAG, \"PIN ") ++ pyStr pinResolved ++ (", ") ++ pyStr val ++ ("\");")).toList

/-- `args[:2] if len(args) >= 2 else (None, None)`. -/
def firstTwo : List String → Option String × Option String
| a :: b :: _ => (some a, some b)
| _ => (none, none)

/-- The body of the instrumentation loop of `main` for one call site:
extract the arguments (raising — `none` — if the `arguments` field is
missing), take the first two as (pin, value), resolve the pin through the
BindingMap if it is a key there, and build the edit triple spanning the
call. -/
def mkEdit (source : List Char) (asg : List (String × String)) (c : Node) : Option Edit :=
  match extract_args c source with
  | none => none
  | some args =>
      let pv := firstTwo args
      let pinResolved : Option String :=
        match pv.1 with
        | some p =>
            (match dictGet asg p with
             | some v => some v
             | none => some p)
        | none => none
      some (c.startB, c.endB, logStmt pinResolved pv.2)

/-- `mkEdit` with the failure case defaulted (used only to state theorems
about runs in which no call site fails). -/
def editFor (source : List Char) (asg : List (String × String)) (c : Node) : Edit :=
  match mkEdit source asg c with
  | some x => x
  | none => (c.startB, c.endB, [])

/-- The instrumentation loop over all call sites; `none` as soon as one
call site raises. -/
def omapEdits (source : List Char) (asg : List (String × String)) : List Node → Option (List Edit)
| [] => some []
| c :: cs =>
    match mkEdit source asg c with
    | none => none
    | some e =>
        match omapEdits source asg cs with
        | none => none
        | some rest => some (e :: rest)

/-- Lexicographic strict comparison of byte strings (Python `bytes`
comparison). -/
def charsLTb : List Char → List Char → Bool
| _, [] => false
| [], _ :: _ => true
| a :: as, b :: bs => decide (a < b) || (a == b && charsLTb as bs)

/-- Python tuple comparison `(s1, e1, r1) < (s2, e2, r2)`. -/
def editLTb (x y : Edit) : Bool :=
  decide (x.1 < y.1) ||
    (x.1 == y.1 &&
      (decide (x.2.1 < y.2.1) || (x.2.1 == y.2.1 && charsLTb x.2.2 y.2.2)))

/-- Insert an element into a descending-sorted list, before the first
element it is not smaller than (the stable-descending insertion step). -/
def orderedInsertDesc (x : Edit) : List Edit → List Edit
| [] => [x]
| y :: ys => if editLTb x y then y :: orderedInsertDesc x ys else x :: y :: ys

/-- `sorted(edits, reverse=True)`: Python's sort is stable and with
`reverse=True` orders by the reversed comparison while keeping equal
elements in their original order; any stable descending sort computes the
same list, so it is modelled by stable insertion sort. -/
def pySortDesc : List Edit → List Edit
| [] => []
| x :: xs => orderedInsertDesc x (pySortDesc xs)

/-- Bytearray slice assignment `buf[s:e] = r` (for `s ≤ e ≤ len(buf)`
this is `buf[:s] + r + buf[e:]`; `List.take`/`List.drop` clamp exactly as
Python clamps out-of-range slice indices). -/
def pySliceAssign (buf : List Char) (s e : Nat) (r : List Char) : List Char :=
  buf.take s ++ r ++ buf.drop (max s e)

/-- The application loop
`for start, end, repl in sorted(edits, reverse=True): instrumented[start:end] = repl`. -/
def applyEditsDesc (buf : List Char) : List Edit → List Char
| [] => buf
| (s, e, r) :: rest => applyEditsDesc (pySliceAssign buf s e r) rest

/-- The instrumentation half of `main`: build the BindingMap, collect the
`digitalWrite` call sites, build one edit per site, and apply all edits to
a copy of the buffer in descending sorted order.  `none` models an
uncaught exception aborting the run. -/
def instrument (source : List Char) (tree : Node) : Option (List Char) :=
  match omapEdits source (extract_variable_assignments tree source)
      (find_digital_write_calls source tree) with
  | none => none
  | some edits => some (applyEditsDesc source (pySortDesc edits))

/-- Value of a digit string (no sign), `none` if empty or not all digits. -/
def digitsVal : List Char → Option Nat
| [] => none
| ds =>
    if ds.all (fun c => c.isDigit)
    then some (ds.foldl (fun a c => a * 10 + (c.toNat - 48)) 0)
    else none

/-- Python `int(s)` on a string: surrounding whitespace stripped, one
optional sign, then a nonempty run of digits; raises (`none`) otherwise. -/
def pyInt (s : String) : Option Int :=
  match (pyStrip s).toList with
  | '-' :: ds => (digitsVal ds).map (fun n => -(n : Int))
  | '+' :: ds => (digitsVal ds).map (fun n => (n : Int))
  | ds => (digitsVal ds).map (fun n => (n : Int))

/-- `try: v = int(x) except ValueError: v = x` followed by `str(v)`:
the string representation after attempted integer coercion. -/
def coerceStr (s : String) : String :=
  match pyInt s with
  | some n => toString n
  | none => s

/-- The observed pin string for one call in the verifier loop: the first
argument (or `None` when absent), resolved one hop through the BindingMap
when it is a key there, integer-coerced when possible, then rendered with
`str` (so a missing argument contributes the text `None`). -/
def pinRepr (asg : List (String × String)) (argPin : Option String) : String :=
  match argPin with
  | none => "None"
  | some p =>
      match dictGet asg p with
      | some v => coerceStr v
      | none => coerceStr p

/-- Python `set.add` on a set kept in insertion order. -/
def setAdd (l : List String) (x : String) : List String :=
  if l.contains x then l else l ++ [x]

/-- The `pins_used` accumulation loop of the verifier; `none` as soon as
`extract_args` raises. -/
def pinsUsedAux (source : List Char) (asg : List (String × String)) :
    List Node → List String → Option (List String)
| [], acc => some acc
| c :: cs, acc =>
    match extract_args c source with
    | none => none
    | some args => pinsUsedAux source asg cs (setAdd acc (pinRepr asg args.head?))

/-- Verification outcome for one specification row. -/
inductive VerRes : Type where
| found : VerRes
| presentDifferent (pins : List String) : VerRes
| missing : VerRes
deriving DecidableEq

/-- The per-row classification of the CSV loop of `main`: coerce the
expected pin, collect the observed pin set for the row's function, then
classify FOUND / PRESENT_DIFFERENT / MISSING. -/
def checkRow (source : List Char) (tree : Node) (asg : List (String × String))
    (func pin : String) : Option VerRes :=
  match pinsUsedAux source asg (find_function_calls source func tree) [] with
  | none => none
  | some pins =>
      some (if pins.contains (coerceStr pin) then VerRes.found
            else if pins ≠ [] then VerRes.presentDifferent pins
            else VerRes.missing)

/-- One row of the verifier exactly as `main` runs it: the BindingMap is
built from the same tree and source. -/
def verifyEntry (source : List Char) (tree : Node) (func pin : String) : Option VerRes :=
  checkRow source tree (extract_variable_assignments tree source) func pin

/-- Modelled from the spec (§4.5 classification policy), for comparison
with `checkRow`: "if the expected pin's string representation is a member
of observed-pins → FOUND; else if observed-pins is non-empty →
PRESENT_DIFFERENT (carrying the observed-pins set); else → MISSING".
Makes no reference to the pin-namespace sets. -/
def specClassify (pinVal : String) (pins : List String) : VerRes :=
  if pins.contains pinVal then VerRes.found
  else if pins ≠ [] then VerRes.presentDifferent pins
  else VerRes.missing

/-! Concrete sources from the spec's testable properties, with the syntax
trees the C++ tree-sitter grammar produces for them (byte spans computed
against the source text; in the grammar a `declaration`'s `declarator`
field holds the whole `init_declarator` when an initializer is present,
whose own `declarator` field holds the identifier). -/

def srcCall1 (d : Char) : List Char :=
  (("digitalWrite(") ++ String.mk [d] ++ (", HIGH);")).toList

/-- Tree of `digitalWrite(6, HIGH);` (and of `digitalWrite(5, HIGH);` —
same spans, only the source text differs). -/
def treeCall1 : Node :=
  Node.mk ("translation_unit") 0 22 (toCL [
    (none, Node.mk ("expression_statement") 0 22 (toCL [
      (none, Node.mk ("call_expression") 0 21 (toCL [
        (some ("function"), Node.mk ("identifier") 0 12 .nil),
        (some ("arguments"), Node.mk ("argument_list") 12 21 (toCL [
          (none, Node.mk ("(") 12 13 .nil),
          (none, Node.mk ("number_literal") 13 14 .nil),
          (none, Node.mk (",") 14 15 .nil),
          (none, Node.mk ("identifier") 16 20 .nil),
          (none, Node.mk (")") 20 21 .nil)]))])),
      (none, Node.mk (";") 21 22 .nil)]))])

/-- Tree of the empty source (no call at all). -/
def treeEmpty : Node := Node.mk ("translation_unit") 0 0 .nil

def srcPIN : List Char := ("int PIN = 5; digitalWrite(PIN, HIGH);").toList

/-- Tree of `int PIN = 5; digitalWrite(PIN, HIGH);`. -/
def treePIN : Node :=
  Node.mk ("translation_unit") 0 37 (toCL [
    (none, Node.mk ("declaration") 0 12 (toCL [
      (some ("type"), Node.mk ("primitive_type") 0 3 .nil),
      (some ("declarator"), Node.mk ("init_declarator") 4 11 (toCL [
        (some ("declarator"), Node.mk ("identifier") 4 7 .nil),
        (none, Node.mk ("=") 8 9 .nil),
        (some ("value"), Node.mk ("number_literal") 10 11 .nil)])),
      (none, Node.mk (";") 11 12 .nil)])),
    (none, Node.mk ("expression_statement") 13 37 (toCL [
      (none, Node.mk ("call_expression") 13 36 (toCL [
        (some ("function"), Node.mk ("identifier") 13 25 .nil),
        (some ("arguments"), Node.mk ("argument_list") 25 36 (toCL [
          (none, Node.mk ("(") 25 26 .nil),
          (none, Node.mk ("identifier") 26 29 .nil),
          (none, Node.mk (",") 29 30 .nil),
          (none, Node.mk ("identifier") 31 35 .nil),
          (none, Node.mk (")") 35 36 .nil)]))])),
      (none, Node.mk (";") 36 37 .nil)]))])

def srcDecl : List Char := ("int PIN = 5;").toList

/-- Tree of `int PIN = 5;` alone (a source with no call). -/
def treeDeclOnly : Node :=
  Node.mk ("translation_unit") 0 12 (toCL [
    (none, Node.mk ("declaration") 0 12 (toCL [
      (some ("type"), Node.mk ("primitive_type") 0 3 .nil),
      (some ("declarator"), Node.mk ("init_declarator") 4 11 (toCL [
        (some ("declarator"), Node.mk ("identifier") 4 7 .nil),
        (none, Node.mk ("=") 8 9 .nil),
        (some ("value"), Node.mk ("number_literal") 10 11 .nil)])),
      (none, Node.mk (";") 11 12 .nil)]))])

def srcAB : List Char := ("int A = 5; int B = A; digitalWrite(B, LOW);").toList

/-- Tree of `int A = 5; int B = A; digitalWrite(B, LOW);`. -/
def treeAB : Node :=
  Node.mk ("translation_unit") 0 43 (toCL [
    (none, Node.mk ("declaration") 0 10 (toCL [
      (some ("type"), Node.mk ("primitive_type") 0 3 .nil),
      (some ("declarator"), Node.mk ("init_declarator") 4 9 (toCL [
        (some ("declarator"), Node.mk ("identifier") 4 5 .nil),
        (none, Node.mk ("=") 6 7 .nil),
        (some ("value"), Node.mk ("number_literal") 8 9 .nil)])),
      (none, Node.mk (";") 9 10 .nil)])),
    (none, Node.mk ("declaration") 11 21 (toCL [
      (some ("type"), Node.mk ("primitive_type") 11 14 .nil),
      (some ("declarator"), Node.mk ("init_declarator") 15 20 (toCL [
        (some ("declarator"), Node.mk ("identifier") 15 16 .nil),
        (none, Node.mk ("=") 17 18 .nil),
        (some ("value"), Node.mk ("identifier") 19 20 .nil)])),
      (none, Node.mk (";") 20 21 .nil)])),
    (none, Node.mk ("expression_statement") 22 43 (toCL [
      (none, Node.mk ("call_expression") 22 42 (toCL [
        (some ("function"), Node.mk ("identifier") 22 34 .nil),
        (some ("arguments"), Node.mk ("argument_list") 34 42 (toCL [
          (none, Node.mk ("(") 34 35 .nil),
          (none, Node.mk ("identifier") 35 36 .nil),
          (none, Node.mk (",") 36 37 .nil),
          (none, Node.mk ("identifier") 38 41 .nil),
          (none, Node.mk (")") 41 42 .nil)]))])),
      (none, Node.mk (";") 42 43 .nil)]))])

def srcXX : List Char := ("int X = 1; int X = 2;").toList

/-- Tree of `int X = 1; int X = 2;` (same name initialized twice). -/
def treeXX : Node :=
  Node.mk ("translation_unit") 0 21 (toCL [
    (none, Node.mk ("declaration") 0 10 (toCL [
      (some ("type"), Node.mk ("primitive_type") 0 3 .nil),
      (some ("declarator"), Node.mk ("init_declarator") 4 9 (toCL [
        (some ("declarator"), Node.mk ("identifier") 4 5 .nil),
        (none, Node.mk ("=") 6 7 .nil),
        (some ("value"), Node.mk ("number_literal") 8 9 .nil)])),
      (none, Node.mk (";") 9 10 .nil)])),
    (none, Node.mk ("declaration") 11 21 (toCL [
      (some ("type"), Node.mk ("primitive_type") 11 14 .nil),
      (some ("declarator"), Node.mk ("init_declarator") 15 20 (toCL [
        (some ("declarator"), Node.mk ("identifier") 15 16 .nil),
        (none, Node.mk ("=") 17 18 .nil),
        (some ("value"), Node.mk ("number_literal") 19 20 .nil)])),
      (none, Node.mk (";") 20 21 .nil)]))])

def srcNest : List Char := ("digitalWrite(digitalWrite(1, 2), 3);").toList

/-- Tree of `digitalWrite(digitalWrite(1, 2), 3);` — a matched call
nested inside another matched call. -/
def treeNest : Node :=
  Node.mk ("translation_unit") 0 36 (toCL [
    (none, Node.mk ("expression_statement") 0 36 (toCL [
      (none, Node.mk ("call_expression") 0 35 (toCL [
        (some ("function"), Node.mk ("identifier") 0 12 .nil),
        (some ("arguments"), Node.mk ("argument_list") 12 35 (toCL [
          (none, Node.mk ("(") 12 13 .nil),
          (none, Node.mk ("call_expression") 13 31 (toCL [
            (some ("function"), Node.mk ("identifier") 13 25 .nil),
            (some ("arguments"), Node.mk ("argument_list") 25 31 (toCL [
              (none, Node.mk ("(") 25 26 .nil),
              (none, Node.mk ("number_literal") 26 27 .nil),
              (none, Node.mk (",") 27 28 .nil),
              (none, Node.mk ("number_literal") 29 30 .nil),
              (none, Node.mk (")") 30 31 .nil)]))])),
          (none, Node.mk (",") 31 32 .nil),
          (none, Node.mk ("number_literal") 33 34 .nil),
          (none, Node.mk (")") 34 35 .nil)]))])),
      (none, Node.mk (";") 35 36 .nil)]))])

def srcTwo : List Char := ("digitalWrite(1, HIGH); digitalWrite(2, LOW);").toList

/-- Tree of `digitalWrite(1, HIGH); digitalWrite(2, LOW);` — two
disjoint call sites. -/
def treeTwo : Node :=
  Node.mk ("translation_unit") 0 44 (toCL [
    (none, Node.mk ("expression_statement") 0 22 (toCL [
      (none, Node.mk ("call_expression") 0 21 (toCL [
        (some ("function"), Node.mk ("identifier") 0 12 .nil),
        (some ("arguments"), Node.mk ("argument_list") 12 21 (toCL [
          (none, Node.mk ("(") 12 13 .nil),
          (none, Node.mk ("number_literal") 13 14 .nil),
          (none, Node.mk (",") 14 15 .nil),
          (none, Node.mk ("identifier") 16 20 .nil),
          (none, Node.mk (")") 20 21 .nil)]))])),
      (none, Node.mk (";") 21 22 .nil)])),
    (none, Node.mk ("expression_statement") 23 44 (toCL [
      (none, Node.mk ("call_expression") 23 43 (toCL [
        (some ("function"), Node.mk ("identifier") 23 35 .nil),
        (some ("arguments"), Node.mk ("argument_list") 35 43 (toCL [
          (none, Node.mk ("(") 35 36 .nil),
          (none, Node.mk ("number_literal") 36 37 .nil),
          (none, Node.mk (",") 37 38 .nil),
          (none, Node.mk ("identifier") 39 42 .nil),
          (none, Node.mk (")") 42 43 .nil)]))])),
      (none, Node.mk (";") 43 44 .nil)]))])

def srcZeroArg : List Char := ("digitalWrite();").toList

/-- The call node of `digitalWrite();` — a call with an empty argument
list. -/
def callZeroArg : Node :=
  Node.mk ("call_expression") 0 14 (toCL [
    (some ("function"), Node.mk ("identifier") 0 12 .nil),
    (some ("arguments"), Node.mk ("argument_list") 12 14 (toCL [
      (none, Node.mk ("(") 12 13 .nil),
      (none, Node.mk (")") 13 14 .nil)]))])

/-- Tree of `digitalWrite();`. -/
def treeZeroArg : Node :=
  Node.mk ("translation_unit") 0 15 (toCL [
    (none, Node.mk ("expression_statement") 0 15 (toCL [
      (none, callZeroArg),
      (none, Node.mk (";") 14 15 .nil)]))])

def src99 : List Char := ("digitalWrite(99, HIGH);").toList

/-- Tree of `digitalWrite(99, HIGH);` — pin 99 is outside the DIGITAL
namespace. -/
def tree99 : Node :=
  Node.mk ("translation_unit") 0 23 (toCL [
    (none, Node.mk ("expression_statement") 0 23 (toCL [
      (none, Node.mk ("call_expression") 0 22 (toCL [
        (some ("function"), Node.mk ("identifier") 0 12 .nil),
        (some ("arguments"), Node.mk ("argument_list") 12 22 (toCL [
          (none, Node.mk ("(") 12 13 .nil),
          (none, Node.mk ("number_literal") 13 15 .nil),
          (none, Node.mk (",") 15 16 .nil),
          (none, Node.mk ("identifier") 17 21 .nil),
          (none, Node.mk (")") 21 22 .nil)]))])),
      (none, Node.mk (";") 22 23 .nil)]))])

/-- A call-expression node with no `arguments` field (not produced by the
real grammar, which always attaches an argument list to a call; the shape
claim C6 quantifies over). -/
def callNoArgs : Node :=
  Node.mk ("call_expression") 0 12 (toCL [
    (some ("function"), Node.mk ("identifier") 0 12 .nil)])

/-- A tree containing `callNoArgs` as its only statement. -/
def treeNoArgs : Node :=
  Node.mk ("translation_unit") 0 12 (toCL [(none, callNoArgs)])

def srcNoArgs : List Char := ("digitalWrite").toList

/-! Well-formedness of a parse tree (guaranteed by the tree-sitter
adapter): every node's span is within its parent's span, sibling spans
are ordered left to right without overlap, and spans are proper
intervals. -/

mutual
/-- `wfB n`: the span of `n` is an interval and the children's spans
chain left to right inside it. -/
def Node.wfB : Node → Bool
| .mk k s e cs => decide (s ≤ e) && wfChildren s e cs
/-- The children's spans chain from `lo` up to `hi`. -/
def wfChildren (lo hi : Nat) : ChildList → Bool
| .nil => decide (lo ≤ hi)
| .cons _ c rest => decide (lo ≤ c.startB) && c.wfB && wfChildren c.endB hi rest
end

/-- Two nodes in document order: either the first's span contains the
second's, or the spans are disjoint with the first one before. -/
def NdOrd (a b : Node) : Prop :=
  (a.startB ≤ b.startB ∧ b.endB ≤ a.endB) ∨ a.endB ≤ b.startB

/-- The intended result of applying a descending-ordered list of edits:
the largest edit splits the buffer at its span, the remaining edits are
spliced into the untouched prefix.  Unfolding this definition exhibits
the output as an alternation of untouched slices of the input and the
replacement texts. -/
def spliceDesc (src : List Char) : List Edit → List Char
| [] => src
| (s, e, r) :: rest => spliceDesc (src.take s) rest ++ r ++ src.drop e

/-- A descending edit list fits the buffer bound: every span is a proper
interval ending at or before `bound`, and each later edit ends at or
before the start of every earlier one. -/
def EditsDescOK (bound : Nat) (l : List Edit) : Prop :=
  (∀ x ∈ l, x.1 ≤ x.2.1 ∧ x.2.1 ≤ bound) ∧
    List.Pairwise (fun a b : Edit => b.2.1 ≤ a.1) l

/-! Lemmas about descending edit application. -/

theorem EditsDescOK.mono {b b' : Nat} {l : List Edit} (h : EditsDescOK b l) (hb : b ≤ b') :
    EditsDescOK b' l :=
  ⟨fun x hx => ⟨(h.1 x hx).1, le_trans (h.1 x hx).2 hb⟩, h.2⟩

theorem EditsDescOK.tail {b : Nat} {x : Edit} {l : List Edit} (h : EditsDescOK b (x :: l)) :
    EditsDescOK x.1 l := by
  obtain ⟨hb, hpw⟩ := h
  rw [List.pairwise_cons] at hpw
  exact ⟨fun y hy => ⟨(hb y (List.mem_cons_of_mem _ hy)).1, hpw.1 y hy⟩, hpw.2⟩

theorem pySliceAssign_split {buf : List Char} {s e : Nat} (r : List Char)
    (hse : s ≤ e) : pySliceAssign buf s e r = buf.take s ++ (r ++ buf.drop e) := by
  unfold pySliceAssign
  rw [Nat.max_eq_right hse, List.append_assoc]

theorem le_length_pySliceAssign {buf : List Char} {s e : Nat} (r : List Char)
    (hs : s ≤ buf.length) : s ≤ (pySliceAssign buf s e r).length := by
  unfold pySliceAssign
  simp only [List.length_append, List.length_take]
  omega

theorem applyEditsDesc_append (b2 : List Char) :
    ∀ (l : List Edit) (b1 : List Char), EditsDescOK b1.length l →
      applyEditsDesc (b1 ++ b2) l = applyEditsDesc b1 l ++ b2 := by
  intro l
  induction l with
  | nil => intro b1 h; rfl
  | cons x rest ih =>
      intro b1 h
      obtain ⟨s, e, r⟩ := x
      have hx := h.1 _ (List.mem_cons_self _ _)
      have hse : s ≤ e := hx.1
      have he : e ≤ b1.length := hx.2
      have hs : s ≤ b1.length := le_trans hse he
      have hsplit : pySliceAssign (b1 ++ b2) s e r = pySliceAssign b1 s e r ++ b2 := by
        rw [pySliceAssign_split r hse, pySliceAssign_split r hse,
          List.take_append_of_le_length hs, List.drop_append_of_le_length he]
        simp only [List.append_assoc]
      show applyEditsDesc (pySliceAssign (b1 ++ b2) s e r) rest = _
      rw [hsplit]
      have hrest : EditsDescOK (pySliceAssign b1 s e r).length rest :=
        (EditsDescOK.tail h).mono (le_length_pySliceAssign r hs)
      exact ih (pySliceAssign b1 s e r) hrest

theorem applyEditsDesc_eq_spliceDesc :
    ∀ (l : List Edit) (buf : List Char), EditsDescOK buf.length l →
      applyEditsDesc buf l = spliceDesc buf l := by
  intro l
  induction l with
  | nil => intro buf h; rfl
  | cons x rest ih =>
      intro buf h
      obtain ⟨s, e, r⟩ := x
      have hx := h.1 _ (List.mem_cons_self _ _)
      have hse : s ≤ e := hx.1
      have he : e ≤ buf.length := hx.2
      have hs : s ≤ buf.length := le_trans hse he
      have htk : (buf.take s).length = s := by
        rw [List.length_take]; exact min_eq_left hs
      have hrest : EditsDescOK (buf.take s).length rest := by
        rw [htk]; exact EditsDescOK.tail h
      show applyEditsDesc (pySliceAssign buf s e r) rest = _
      rw [pySliceAssign_split r hse, applyEditsDesc_append _ rest (buf.take s) hrest,
        ih (buf.take s) hrest]
      show _ = spliceDesc (buf.take s) rest ++ r ++ buf.drop e
      rw [List.append_assoc]

/-! Lemmas about the descending sort. -/

theorem orderedInsertDesc_all_lt {x : Edit} :
    ∀ {l : List Edit}, (∀ y ∈ l, editLTb x y = true) → orderedInsertDesc x l = l ++ [x] := by
  intro l
  induction l with
  | nil => intro h; rfl
  | cons y ys ih =>
      intro h
      unfold orderedInsertDesc
      rw [h y (List.mem_cons_self _ _)]
      simp only [if_true]
      rw [ih (fun z hz => h z (List.mem_cons_of_mem _ hz))]
      rfl

/-- Stably sorting in descending order a list that is already in strictly
ascending order reverses it. -/
theorem pySortDesc_of_asc :
    ∀ {l : List Edit}, List.Pairwise (fun a b => editLTb a b = true) l →
      pySortDesc l = l.reverse := by
  intro l
  induction l with
  | nil => intro h; rfl
  | cons x xs ih =>
      intro h
      rw [List.pairwise_cons] at h
      show orderedInsertDesc x (pySortDesc xs) = _
      rw [ih h.2, orderedInsertDesc_all_lt (fun y hy => h.1 y (List.mem_reverse.mp hy)),
        List.reverse_cons]

/-! Lemmas about the tree walk of `find_digital_write_calls`: in a
well-formed tree, collected call sites come out in document order, any
two of them either nested or span-disjoint. -/

theorem wfB_le {t : Node} (h : t.wfB = true) : t.startB ≤ t.endB := by
  obtain ⟨k, s, e, cs⟩ := t
  unfold Node.wfB at h
  rw [Bool.and_eq_true] at h
  exact of_decide_eq_true h.1

theorem wfChildren_le : ∀ (cs : ChildList) (lo hi : Nat), wfChildren lo hi cs = true → lo ≤ hi
| .nil, lo, hi, h => of_decide_eq_true (by unfold wfChildren at h; exact h)
| .cons f c rest, lo, hi, h => by
    unfold wfChildren at h
    rw [Bool.and_eq_true, Bool.and_eq_true] at h
    exact le_trans (of_decide_eq_true h.1.1)
      (le_trans (wfB_le h.1.2) (wfChildren_le rest c.endB hi h.2))

mutual
/-- Every collected call site's span lies within the tree's span and is
an interval. -/
theorem fdw_span (source : List Char) : ∀ (t : Node), t.wfB = true →
    ∀ n ∈ find_digital_write_calls source t,
      t.startB ≤ n.startB ∧ n.endB ≤ t.endB ∧ n.startB ≤ n.endB
| .mk k s e cs, hwf, n, hn => by
    unfold find_digital_write_calls at hn
    unfold Node.wfB at hwf
    rw [Bool.and_eq_true] at hwf
    rcases List.mem_append.mp hn with h1 | h2
    · have hn2 : n = Node.mk k s e cs := by
        by_cases hc : isNamedCall source ("digitalWrite") (Node.mk k s e cs)
        · rw [if_pos hc] at h1; exact List.mem_singleton.mp h1
        · rw [if_neg hc] at h1; exact absurd h1 (List.not_mem_nil n)
      subst hn2
      exact ⟨le_refl _, le_refl _, of_decide_eq_true hwf.1⟩
    · have := fdwList_span source cs s e hwf.2 n h2
      exact ⟨this.1, this.2.1, this.2.2⟩
theorem fdwList_span (source : List Char) :
    ∀ (cs : ChildList) (lo hi : Nat), wfChildren lo hi cs = true →
      ∀ n ∈ fdwList source cs, lo ≤ n.startB ∧ n.endB ≤ hi ∧ n.startB ≤ n.endB
| .nil, lo, hi, h, n, hn => absurd hn (List.not_mem_nil n)
| .cons f c rest, lo, hi, h, n, hn => by
    unfold wfChildren at h
    rw [Bool.and_eq_true, Bool.and_eq_true] at h
    have hlo : lo ≤ c.startB := of_decide_eq_true h.1.1
    have hrest : c.endB ≤ hi := wfChildren_le rest c.endB hi h.2
    rcases List.mem_append.mp hn with h1 | h2
    · have := fdw_span source c h.1.2 n h1
      exact ⟨le_trans hlo this.1, le_trans this.2.1 hrest, this.2.2⟩
    · have := fdwList_span source rest c.endB hi h.2 n h2
      exact ⟨le_trans hlo (le_trans (wfB_le h.1.2) this.1), this.2.1, this.2.2⟩
end

mutual
/-- Any two collected call sites are nested or disjoint, in document
order. -/
theorem fdw_pw (source : List Char) : ∀ (t : Node), t.wfB = true →
    List.Pairwise NdOrd (find_digital_write_calls source t)
| .mk k s e cs, hwf => by
    unfold find_digital_write_calls
    unfold Node.wfB at hwf
    rw [Bool.and_eq_true] at hwf
    by_cases hc : isNamedCall source ("digitalWrite") (Node.mk k s e cs)
    · rw [if_pos hc, List.singleton_append, List.pairwise_cons]
      constructor
      · intro b hb
        have := fdwList_span source cs s e hwf.2 b hb
        exact Or.inl ⟨this.1, this.2.1⟩
      · exact fdwList_pw source cs s e hwf.2
    · rw [if_neg hc, List.nil_append]
      exact fdwList_pw source cs s e hwf.2
theorem fdwList_pw (source : List Char) :
    ∀ (cs : ChildList) (lo hi : Nat), wfChildren lo hi cs = true →
      List.Pairwise NdOrd (fdwList source cs)
| .nil, lo, hi, h => List.Pairwise.nil
| .cons f c rest, lo, hi, h => by
    unfold fdwList
    unfold wfChildren at h
    rw [Bool.and_eq_true, Bool.and_eq_true] at h
    rw [List.pairwise_append]
    refine ⟨fdw_pw source c h.1.2, fdwList_pw source rest c.endB hi h.2, ?_⟩
    intro a ha b hb
    have hA := fdw_span source c h.1.2 a ha
    have hB := fdwList_span source rest c.endB hi h.2 b hb
    exact Or.inr (le_trans hA.2.1 hB.1)
end

mutual
/-- The collection walk is exactly a pre-order filter of the tree. -/
theorem fdw_eq_filter (source : List Char) : ∀ (t : Node),
    find_digital_write_calls source t
      = t.allNodes.filter (isNamedCall source ("digitalWrite"))
| .mk k s e cs => by
    unfold find_digital_write_calls Node.allNodes
    rw [List.filter_cons, fdwList_eq_filter source cs]
    by_cases hc : isNamedCall source ("digitalWrite") (Node.mk k s e cs)
    · rw [if_pos hc, if_pos hc, List.singleton_append]
    · rw [if_neg hc, if_neg hc, List.nil_append]
theorem fdwList_eq_filter (source : List Char) : ∀ (cs : ChildList),
    fdwList source cs = (allNodesList cs).filter (isNamedCall source ("digitalWrite"))
| .nil => rfl
| .cons f c rest => by
    unfold fdwList allNodesList
    rw [List.filter_append, fdw_eq_filter source c, fdwList_eq_filter source rest]
end

/-! Lemmas about the edit-building loop. -/

theorem editFor_startB (source : List Char) (asg : List (String × String)) (c : Node) :
    (editFor source asg c).1 = c.startB := by
  unfold editFor mkEdit
  cases extract_args c source <;> rfl

theorem editFor_endB (source : List Char) (asg : List (String × String)) (c : Node) :
    (editFor source asg c).2.1 = c.endB := by
  unfold editFor mkEdit
  cases extract_args c source <;> rfl

theorem mkEdit_eq_editFor (source : List Char) (asg : List (String × String)) (c : Node)
    (h : (c.childByFieldName ("arguments")).isSome = true) :
    mkEdit source asg c = some (editFor source asg c) := by
  unfold editFor
  cases hm : mkEdit source asg c with
  | some x => rfl
  | none =>
      exfalso
      unfold mkEdit extract_args at hm
      cases hf : c.childByFieldName ("arguments") with
      | none => rw [hf] at h; exact Bool.false_ne_true h
      | some a => rw [hf] at hm; exact Option.noConfusion hm

theorem omapEdits_eq_map (source : List Char) (asg : List (String × String)) :
    ∀ (calls : List Node),
      (∀ c ∈ calls, (c.childByFieldName ("arguments")).isSome = true) →
      omapEdits source asg calls = some (calls.map (editFor source asg))
| [], h => rfl
| c :: cs, h => by
    unfold omapEdits
    rw [mkEdit_eq_editFor source asg c (h c (List.mem_cons_self _ _)),
      omapEdits_eq_map source asg cs (fun x hx => h x (List.mem_cons_of_mem _ hx))]
    rfl

theorem editLTb_of_lt {x y : Edit} (h : x.1 < y.1) : editLTb x y = true := by
  unfold editLTb
  rw [decide_eq_true h, Bool.true_or]

/-- C8 (counterexample): the claim asserts that for every source file the
edit byte ranges are pairwise non-overlapping because a matched
`digitalWrite` call expression cannot nest another matched call; but in
`digitalWrite(digitalWrite(1, 2), 3);` the inner matched call's span
`[13, 31)` lies strictly inside the outer matched call's span `[0, 35)`,
so the two produced edits overlap. -/
theorem c8_overlap_counterexample :
    ¬ List.Pairwise (fun a b : Edit => a.2.1 ≤ b.1 ∨ b.2.1 ≤ a.1)
        ((find_digital_write_calls srcNest treeNest).map
          (editFor srcNest (extract_variable_assignments treeNest srcNest))) := by
  decide

/-- C8 (amended): for every well-formed tree in which no matched
`digitalWrite` call-expression span contains a later matched call's span,
the edits produced by the instrumentation pass are pairwise
non-overlapping — each edit's range ends at or before the start of every
later edit's range. -/
theorem c8_edits_disjoint (source : List Char) (tree : Node)
    (hwf : tree.wfB = true)
    (hnn : List.Pairwise (fun a b : Node => ¬(a.startB ≤ b.startB ∧ b.endB ≤ a.endB))
      (find_digital_write_calls source tree)) :
    List.Pairwise (fun a b : Edit => a.2.1 ≤ b.1)
      ((find_digital_write_calls source tree).map
        (editFor source (extract_variable_assignments tree source))) := by
  rw [List.pairwise_map]
  have hdisj : List.Pairwise (fun a b : Node => a.endB ≤ b.startB)
      (find_digital_write_calls source tree) :=
    ((fdw_pw source tree hwf).and hnn).imp (fun hab => hab.1.resolve_left hab.2)
  refine hdisj.imp ?_
  intro a b hab
  rw [editFor_endB, editFor_startB]
  exact hab

/-- C8 witness: two sibling call sites in a well-formed tree. -/
theorem c8_edits_disjoint_witness :
    treeTwo.wfB = true ∧
    List.Pairwise (fun a b : Node => ¬(a.startB ≤ b.startB ∧ b.endB ≤ a.endB))
      (find_digital_write_calls srcTwo treeTwo) ∧
    List.Pairwise (fun a b : Edit => a.2.1 ≤ b.1)
      ((find_digital_write_calls srcTwo treeTwo).map
        (editFor srcTwo (extract_variable_assignments treeTwo srcTwo))) :=
  ⟨by decide, by decide, c8_edits_disjoint srcTwo treeTwo (by decide) (by decide)⟩

/-- C4: for every source file whose syntax tree contains zero call
expressions whose callee text is exactly `digitalWrite`, the instrument
operation produces an output buffer byte-identical to the input buffer. -/
theorem c4_noop_instrument (source : List Char) (tree : Node)
    (h : ∀ n ∈ tree.allNodes, isNamedCall source ("digitalWrite") n = false) :
    instrument source tree = some source := by
  have hf : find_digital_write_calls source tree = [] := by
    rw [fdw_eq_filter source tree]
    exact List.filter_eq_nil_iff.mpr (fun a ha hpa => Bool.false_ne_true ((h a ha).symm.trans hpa))
  unfold instrument
  rw [hf]
  rfl

/-- C4 witness: `int PIN = 5;` contains no `digitalWrite` call, and
instrumenting it returns the source unchanged. -/
theorem c4_noop_witness :
    (∀ n ∈ treeDeclOnly.allNodes, isNamedCall srcDecl ("digitalWrite") n = false) ∧
    instrument srcDecl treeDeclOnly = some srcDecl :=
  ⟨by decide, c4_noop_instrument srcDecl treeDeclOnly (by decide)⟩

/-- C1: for every well-formed parse tree (spans nested and ordered, every
matched call a nonempty span carrying an `arguments` field — all
guaranteed by the parser) in which no matched `digitalWrite` call is
nested inside another, the instrument operation builds exactly one edit
per call site (the map has one entry per call), sorts the edits in
descending start-offset order (the sorted list is the reverse of the
document-order list), and the resulting buffer is exactly the original
buffer with each call-site span replaced by its log statement: unfolding
`spliceDesc` on the reversed list exhibits the output as the alternation
of untouched slices of the input (offsets computed on the original
buffer) and the replacement texts, for any number of call sites and any
replacement lengths. -/
theorem c1_instrument_exact (source : List Char) (tree : Node)
    (hwf : tree.wfB = true)
    (hlen : tree.endB ≤ source.length)
    (hargs : ∀ c ∈ find_digital_write_calls source tree,
      (c.childByFieldName ("arguments")).isSome = true)
    (hpos : ∀ c ∈ find_digital_write_calls source tree, c.startB < c.endB)
    (hnn : List.Pairwise (fun a b : Node => ¬(a.startB ≤ b.startB ∧ b.endB ≤ a.endB))
      (find_digital_write_calls source tree)) :
    ((find_digital_write_calls source tree).map
        (editFor source (extract_variable_assignments tree source))).length
      = (find_digital_write_calls source tree).length ∧
    pySortDesc ((find_digital_write_calls source tree).map
        (editFor source (extract_variable_assignments tree source)))
      = ((find_digital_write_calls source tree).map
        (editFor source (extract_variable_assignments tree source))).reverse ∧
    instrument source tree
      = some (spliceDesc source
          (((find_digital_write_calls source tree).map
            (editFor source (extract_variable_assignments tree source))).reverse)) := by
  have hdisj : List.Pairwise (fun a b : Node => a.endB ≤ b.startB)
      (find_digital_write_calls source tree) :=
    ((fdw_pw source tree hwf).and hnn).imp (fun hab => Or.resolve_left hab.1 hab.2)
  have hstrict : List.Pairwise
      (fun a b : Node => editLTb (editFor source (extract_variable_assignments tree source) a)
        (editFor source (extract_variable_assignments tree source) b) = true)
      (find_digital_write_calls source tree) := by
    refine List.Pairwise.imp_of_mem ?_ hdisj
    intro a b ha hb hab
    refine editLTb_of_lt ?_
    rw [editFor_startB, editFor_startB]
    exact lt_of_lt_of_le (hpos a ha) hab
  have hsort : pySortDesc ((find_digital_write_calls source tree).map
      (editFor source (extract_variable_assignments tree source)))
      = ((find_digital_write_calls source tree).map
        (editFor source (extract_variable_assignments tree source))).reverse :=
    pySortDesc_of_asc (List.pairwise_map.mpr hstrict)
  have hOK : EditsDescOK source.length
      (((find_digital_write_calls source tree).map
        (editFor source (extract_variable_assignments tree source))).reverse) := by
    constructor
    · intro x hx
      rw [List.mem_reverse] at hx
      obtain ⟨c, hc, rfl⟩ := List.mem_map.mp hx
      rw [editFor_startB, editFor_endB]
      have hs := fdw_span source tree hwf c hc
      exact ⟨le_of_lt (hpos c hc), le_trans hs.2.1 hlen⟩
    · rw [List.pairwise_reverse, List.pairwise_map]
      refine hdisj.imp ?_
      intro a b hab
      rw [editFor_endB, editFor_startB]
      exact hab
  refine ⟨by rw [List.length_map], hsort, ?_⟩
  unfold instrument
  rw [omapEdits_eq_map source (extract_variable_assignments tree source) _ hargs]
  show some (applyEditsDesc source (pySortDesc _)) = _
  rw [hsort, applyEditsDesc_eq_spliceDesc _ source hOK]

/-- C1 witness: two call sites whose replacement texts differ in length
from the original spans. -/
theorem c1_instrument_exact_witness :
    treeTwo.wfB = true ∧ treeTwo.endB ≤ srcTwo.length ∧
    instrument srcTwo treeTwo
      = some (spliceDesc srcTwo
          (((find_digital_write_calls srcTwo treeTwo).map
            (editFor srcTwo (extract_variable_assignments treeTwo srcTwo))).reverse)) :=
  ⟨by decide, by decide,
    (c1_instrument_exact srcTwo treeTwo (by decide) (by decide) (by decide) (by decide)
      (by decide)).2.2⟩

/-- C2: the verifier classifies every specification entry as exactly one
of FOUND (iff the coerced expected pin's string representation is in the
observed-pins set), PRESENT_DIFFERENT carrying the observed set (iff not
found and the set is non-empty), or MISSING (iff the set is empty); and
on the spec's three concrete cases, `digitalWrite(6, HIGH);` against row
(digitalWrite, 5) is PRESENT_DIFFERENT with observed set `{"6"}`, an
empty source is MISSING, and `digitalWrite(5, HIGH);` is FOUND. -/
theorem c2_verifier_classification :
    (∀ (source : List Char) (tree : Node) (asg : List (String × String))
        (func pin : String) (ps : List String),
        pinsUsedAux source asg (find_function_calls source func tree) [] = some ps →
        (checkRow source tree asg func pin = some VerRes.found ↔ coerceStr pin ∈ ps) ∧
        (checkRow source tree asg func pin = some (VerRes.presentDifferent ps) ↔
          (coerceStr pin ∉ ps ∧ ps ≠ [])) ∧
        (checkRow source tree asg func pin = some VerRes.missing ↔
          (coerceStr pin ∉ ps ∧ ps = []))) ∧
    verifyEntry (srcCall1 '6') treeCall1 ("digitalWrite") ("5")
      = some (VerRes.presentDifferent (["6"])) ∧
    verifyEntry [] treeEmpty ("digitalWrite") ("5") = some VerRes.missing ∧
    verifyEntry (srcCall1 '5') treeCall1 ("digitalWrite") ("5") = some VerRes.found := by
  refine ⟨?_, by decide, by decide, by decide⟩
  intro source tree asg func pin ps h
  unfold checkRow
  rw [h]
  by_cases hc : coerceStr pin ∈ ps
  · have hcc : ps.contains (coerceStr pin) = true := List.elem_iff.mpr hc
    simp [hcc, hc]
  · have hcc : ps.contains (coerceStr pin) = false := by
      rw [Bool.eq_false_iff]
      exact fun hb => hc (List.elem_iff.mp hb)
    by_cases he : ps = []
    · subst he
      simp [hcc, hc]
    · simp [hcc, hc, he]

/-- C2 witness for the conditional trichotomy, at the FOUND example. -/
theorem c2_verifier_classification_witness :
    checkRow (srcCall1 '5') treeCall1 [] ("digitalWrite") ("5") = some VerRes.found ↔
      coerceStr ("5") ∈ (["5"]) :=
  (c2_verifier_classification.1 (srcCall1 '5') treeCall1 [] ("digitalWrite") ("5") (["5"])
    (by decide)).1

/-- C9: the verifier's classification factors through `specClassify`,
which never consults the ANALOG/DIGITAL namespace sets; concretely, pin
99 is outside the DIGITAL set (`is_valid_pin` rejects it) yet
`digitalWrite(99, HIGH);` against row (digitalWrite, 99) still classifies
FOUND by the plain trichotomy. -/
theorem c9_namespace_independence :
    (∀ (source : List Char) (tree : Node) (asg : List (String × String)) (func pin : String),
        checkRow source tree asg func pin
          = Option.map (specClassify (coerceStr pin))
              (pinsUsedAux source asg (find_function_calls source func tree) [])) ∧
    is_valid_pin ("digitalWrite") (PyVal.i 99) = false ∧
    verifyEntry src99 tree99 ("digitalWrite") ("99") = some VerRes.found := by
  refine ⟨?_, by decide, by decide⟩
  intro source tree asg func pin
  unfold checkRow specClassify
  cases pinsUsedAux source asg (find_function_calls source func tree) [] <;> rfl

/-- C10: a call whose extracted argument list is empty contributes the
string `None` to the observed-pins set (the first argument is `None` and
`str(None)` renders as `None`), so a specification entry whose function
is called only with zero arguments is classified PRESENT_DIFFERENT with
observed set `{"None"}`, not MISSING. -/
theorem c10_zero_arg_call_none :
    (∀ (asg : List (String × String)), pinRepr asg none = "None") ∧
    (∀ (source : List Char) (asg : List (String × String)) (c : Node) (cs : List Node)
        (acc : List String),
        extract_args c source = some [] →
        pinsUsedAux source asg (c :: cs) acc = pinsUsedAux source asg cs (setAdd acc ("None"))) ∧
    verifyEntry srcZeroArg treeZeroArg ("digitalWrite") ("5")
      = some (VerRes.presentDifferent (["None"])) := by
  refine ⟨fun asg => rfl, ?_, by decide⟩
  intro source asg c cs acc h
  rw [pinsUsedAux, h]
  rfl

/-- C10 witness: the step lemma applied to the call of `digitalWrite();`. -/
theorem c10_zero_arg_call_none_witness :
    extract_args callZeroArg srcZeroArg = some [] ∧
    pinsUsedAux srcZeroArg [] [callZeroArg] []
      = pinsUsedAux srcZeroArg [] [] (setAdd [] ("None")) :=
  ⟨by decide, c10_zero_arg_call_none.2.1 srcZeroArg [] callZeroArg [] [] (by decide)⟩

/-- C3 (evaluation at the failing input): for
`int PIN = 5; digitalWrite(PIN, HIGH);` the binding resolver does not
record the declared name — the declaration's `declarator` field holds the
whole `init_declarator` node, so the BindingMap's key is the text
`PIN = 5`, the lookup of the pin argument `PIN` fails, and the
instrumented output embeds the unresolved variable name `PIN`, not `5`
(contrary to the claim). -/
theorem c3_binding_resolution_eval :
    extract_variable_assignments treePIN srcPIN = [(("PIN = 5"), ("5"))] ∧
    dictGet (extract_variable_assignments treePIN srcPIN) ("PIN") = none ∧
    instrument srcPIN treePIN
      = some (("int PIN = 5; ESP_LOGI(TAG, \"PIN PIN, HIGH\");;").toList) := by
  refine ⟨by decide, by decide, by decide⟩

/-- C5 (evaluation at the failing input): for
`int A = 5; int B = A; digitalWrite(B, LOW);` the BindingMap's keys are
the init-declarator texts `A = 5` and `B = A`, so the pin argument `B`
resolves to nothing at all and the output embeds `B` — not the claimed
one-hop result `A`. -/
theorem c5_one_hop_eval :
    extract_variable_assignments treeAB srcAB
      = [(("A = 5"), ("5")), (("B = A"), ("A"))] ∧
    dictGet (extract_variable_assignments treeAB srcAB) ("B") = none ∧
    instrument srcAB treeAB
      = some (("int A = 5; int B = A; ESP_LOGI(TAG, \"PIN B, LOW\");;").toList) := by
  refine ⟨by decide, by decide, by decide⟩

/-- C7 (evaluation at the failing input): for `int X = 1; int X = 2;`
the two declarations produce two distinct keys `X = 1` and `X = 2`
(the init-declarator texts), so the BindingMap does not map the name `X`
at all — no binding for the name is ever recorded, hence none is
overwritten. -/
theorem c7_last_wins_eval :
    extract_variable_assignments treeXX srcXX
      = [(("X = 1"), ("1")), (("X = 2"), ("2"))] ∧
    dictGet (extract_variable_assignments treeXX srcXX) ("X") = none := by
  refine ⟨by decide, by decide⟩

/-- C6 (counterexample): on a call-expression node with no `arguments`
field, `extract_args` does not return an empty or short list — it raises
(`none`), and the whole instrumentation run fails (`none`), contrary to
the claim. -/
theorem c6_no_arguments_counterexample :
    extract_args callNoArgs srcNoArgs = none ∧
    instrument srcNoArgs treeNoArgs = none := by
  refine ⟨by decide, by decide⟩

/-- C6 (amended): when a call has no `arguments` field, `extract_args`
raises — modelled as `none` — and the per-call edit construction fails
with it (aborting the run); graceful degradation exists only one level
up: when the `arguments` field is present but holds fewer than two
argument values, the edit is still built, with both pin and value
rendered as the absent-value text `None`. -/
theorem c6_no_arguments_amended :
    (∀ (call : Node) (source : List Char),
        call.childByFieldName ("arguments") = none →
        extract_args call source = none ∧
        ∀ (asg : List (String × String)), mkEdit source asg call = none) ∧
    (∀ (source : List Char) (asg : List (String × String)) (call : Node) (args : List String),
        extract_args call source = some args → args.length < 2 →
        mkEdit source asg call = some (call.startB, call.endB, logStmt none none)) := by
  constructor
  · intro call source h
    have he : extract_args call source = none := by
      unfold extract_args
      rw [h]
    refine ⟨he, fun asg => ?_⟩
    unfold mkEdit
    rw [he]
  · intro source asg call args h hlen
    unfold mkEdit
    rw [h]
    match args, hlen with
    | [], _ => rfl
    | [a], _ => rfl

/-- C6 witness: the two halves applied at `digitalWrite` with no
argument field and at `digitalWrite();`. -/
theorem c6_no_arguments_witness :
    (callNoArgs.childByFieldName ("arguments")).isNone = true ∧
    mkEdit srcNoArgs [] callNoArgs = none ∧
    mkEdit srcZeroArg [] callZeroArg = some (0, 14, logStmt none none) :=
  ⟨by rfl, (c6_no_arguments_amended.1 callNoArgs srcNoArgs (by rfl)).2 [],
    c6_no_arguments_amended.2 srcZeroArg [] callZeroArg [] (by rfl) (by decide)⟩
